import Mathlib

/-!
Verification development for the "Data Jar" web application core
(`src/App.tsx`): the node-tree data model, the dotted-path resolver
`resolvePath`, the expression evaluator `evaluateExpression`, the
path-addressed upsert `setDeepValue`, and the JSON codec
`parseImport` / `exportData`.

Modelling conventions:
- JavaScript runtime strings/booleans are `String`/`Bool`; JavaScript
  numbers are carried opaquely as `Rat` (none of the verified code paths
  computes with them; they only pass through untouched).
- `DataNode.type` is a `String`, not a closed enum: the source's `DataType`
  annotation is circumvented at runtime (`parseImport` stores raw
  `typeof` results such as "string", and the URL trigger casts arbitrary
  query parameters), so a string field is the faithful model.
- The JavaScript runtime services the evaluator delegates to — number
  stringification, the `isNaN(Number(s))` coercion and the
  `new Function(...)()` arithmetic evaluation — are taken as explicit
  function parameters; the evaluator's own control flow (reference
  scanning, resolution, type dispatch, character-set checks) is modelled
  exactly.
- Fresh-id generation (`generateId`, a random string in the source) is
  modelled by an id stream `gen : Nat → String` together with a counter
  that is threaded in the source's evaluation order.
- Mutation results are `Option`-valued: `none` models the source throwing
  a `TypeError` (descending into a payload that is not an array of child
  nodes). Payloads that are raw JSON arrays (they arise only from
  importing an array nested directly inside an array) would be traversed
  as plain JavaScript arrays by the source; that hybrid state is outside
  this model and also mapped to `none` / not-found, as noted at each site.
-/

/-- A parsed JSON value, the input/output universe of the codec.
JSON `null` is omitted: the claims under verification exclude it, and the
source's importer crashes on it (`Object.keys(null)`), so no modelled code
path consumes it. -/
inductive Json : Type where
  | str (s : String)
  | num (q : Rat)
  | bool (b : Bool)
  | obj (fields : List (String × Json))
  | arr (elems : List Json)

mutual

/-- The source's `DataNode`: `{ id, name, type, value }` with `type`
a runtime string (see module comment) and `value` an untyped slot. -/
inductive DataNode : Type where
  | mk (id : String) (name : String) (type : String) (value : DataValue)

/-- The runtime values that can occupy a node's `value` slot: a string,
number or boolean primitive, an array of child nodes, or a raw JSON value
(`parseImport` stores the unconverted JSON item for objects and arrays
that are elements of an imported array). `raw` only ever holds
`Json.obj` or `Json.arr`; primitive items are stored as the matching
primitive constructor, which is how JavaScript itself represents them. -/
inductive DataValue : Type where
  | str (s : String)
  | num (q : Rat)
  | bool (b : Bool)
  | nodes (children : List DataNode)
  | raw (j : Json)

end

def DataNode.id : DataNode → String
  | .mk i _ _ _ => i

def DataNode.name : DataNode → String
  | .mk _ n _ _ => n

def DataNode.type : DataNode → String
  | .mk _ _ t _ => t

def DataNode.value : DataNode → DataValue
  | .mk _ _ _ v => v

/-- The JavaScript value universe produced by `exportData`: JSON-like
values, plus `undef` for `undefined` and `rawNodes` for an internal
child-node array that leaks through the codec unconverted (possible only
for malformed trees; never reached by the claims). -/
inductive JVal : Type where
  | str (s : String)
  | num (q : Rat)
  | bool (b : Bool)
  | undef
  | obj (fields : List (String × JVal))
  | arr (elems : List JVal)
  | rawNodes (l : List DataNode)

/-- A JavaScript value as returned by the evaluator (`result` field). -/
inductive JsVal : Type where
  | str (s : String)
  | num (q : Rat)
  | bool (b : Bool)
  | undef

/-- The evaluator's return shape `{ result, error? }`. -/
structure EvalResult where
  result : JsVal
  error : Option String

/-! ## Models of the JavaScript primitives used by the source -/

/-- The character class of the JavaScript regex `\s` (and of
`parseInt`'s leading `StrWhiteSpace`): ASCII whitespace, NBSP, the
Unicode space separators, line/paragraph separators and the BOM. -/
def isJsWhitespace (c : Char) : Bool :=
  c == ' ' || c == '\t' || c == '\n' || c == '\r' ||
  c.val == 0x0b || c.val == 0x0c || c.val == 0xa0 || c.val == 0x1680 ||
  (0x2000 ≤ c.val && c.val ≤ 0x200a) ||
  c.val == 0x2028 || c.val == 0x2029 || c.val == 0x202f ||
  c.val == 0x205f || c.val == 0x3000 || c.val == 0xfeff

def decDigitVal (c : Char) : Option Nat :=
  if c.isDigit then some (c.toNat - '0'.toNat) else none

def hexDigitVal (c : Char) : Option Nat :=
  if c.isDigit then some (c.toNat - '0'.toNat)
  else if 'a' ≤ c ∧ c ≤ 'f' then some (c.toNat - 'a'.toNat + 10)
  else if 'A' ≤ c ∧ c ≤ 'F' then some (c.toNat - 'A'.toNat + 10)
  else none

/-- Parse the longest prefix of digits of the given base; `none` when
there is no digit at all (JavaScript's `NaN` outcome). -/
def parseDigitsWith (base : Nat) (val : Char → Option Nat) (l : List Char) : Option Nat :=
  let ds := l.takeWhile (fun c => (val c).isSome)
  if ds.isEmpty then none
  else some (ds.foldl (fun a c => a * base + ((val c).getD 0)) 0)

/-- JavaScript `parseInt(s)` (radix unspecified): skip leading
whitespace, optional sign, `0x`/`0X` selects base 16, otherwise base 10;
parse the longest digit prefix and ignore any trailing characters;
`none` models the `NaN` result. -/
def parseIntJS (s : String) : Option Int :=
  let l := s.data.dropWhile (fun c => isJsWhitespace c)
  let sign : Int := match l with
    | '-' :: _ => -1
    | _ => 1
  let l₁ : List Char := match l with
    | '-' :: rest => rest
    | '+' :: rest => rest
    | _ => l
  let mag : Option Nat := match l₁ with
    | '0' :: c :: rest =>
      if c = 'x' ∨ c = 'X' then parseDigitsWith 16 hexDigitVal rest
      else parseDigitsWith 10 decDigitVal l₁
    | _ => parseDigitsWith 10 decDigitVal l₁
  mag.map (fun m => sign * (m : Int))

mutual

/-- JavaScript `String(j)` for a raw JSON value: objects print as
"[object Object]", arrays join their elements with commas
(`Array.prototype.toString`). Number printing is the supplied
`jsNum` parameter (see module comment). -/
def jsStringOfJson (jsNum : Rat → String) : Json → String
  | .str s => s
  | .num q => jsNum q
  | .bool b => if b then "true" else "false"
  | .obj _ => "[object Object]"
  | .arr l => String.intercalate "," (jsStringsOfJsonList jsNum l)

def jsStringsOfJsonList (jsNum : Rat → String) : List Json → List String
  | [] => []
  | j :: rest => jsStringOfJson jsNum j :: jsStringsOfJsonList jsNum rest

end

/-- JavaScript `String(v)` for a node payload. A child-node array is an
array of plain objects, so it prints as "[object Object]" joined by
commas. -/
def jsStringOfValue (jsNum : Rat → String) : DataValue → String
  | .str s => s
  | .num q => jsNum q
  | .bool b => if b then "true" else "false"
  | .nodes l => String.intercalate "," (l.map (fun _ => "[object Object]"))
  | .raw j => jsStringOfJson jsNum j

/-! ## Path resolver (`resolvePath`, App.tsx lines 39-61) -/

/-- JavaScript `path.split('.')` on the character list: cut at every
dot; the result always has at least one element (the empty string splits
to `[""]`, as in JavaScript). -/
def splitDotAux : List Char → List Char → List String
  | [], acc => [String.mk acc]
  | '.' :: rest, acc => String.mk acc :: splitDotAux rest []
  | c :: rest, acc => splitDotAux rest (acc ++ [c])

/-- JavaScript `path.split('.')`. -/
def splitDot (s : String) : List String :=
  splitDotAux s.data []

/-- One lookup step on a child sequence: find by `name` first
(`current.find(node => node.name === part)`), otherwise fall back to
indexing with `parseInt(part)`; a missing name, an unparsable segment or
an out-of-range index give `undefined`. -/
def resolveSeq (nodes : List DataNode) (part : String) : Option DataNode :=
  match nodes.find? (fun n => n.name == part) with
  | some n => some n
  | none =>
    match parseIntJS part with
    | none => none
    | some i =>
      if h : 0 ≤ i ∧ i.toNat < nodes.length then some (nodes.get ⟨i.toNat, h.2⟩)
      else none

/-- The resolver's segment loop. A non-final segment continues into the
found node's `value` only when that value is an array of child nodes;
a primitive or raw-JSON-object payload fails `Array.isArray` in the
source and resolution returns `undefined`. A raw JSON *array* payload
(importing an array nested directly inside an array) would be traversed
as a plain array by the source; that state is outside the model and is
mapped to `none` here (no claim quantifies over it). The empty segment
list returns `undefined` (the source's fall-through return). -/
def resolveLoop : List DataNode → List String → Option DataNode
  | _, [] => none
  | nodes, [part] => resolveSeq nodes part
  | nodes, part :: rest =>
    match resolveSeq nodes part with
    | none => none
    | some n =>
      match n.value with
      | .nodes children => resolveLoop children rest
      | _ => none

/-- `resolvePath(root, path)`: split on "." and walk the segments. -/
def resolvePath (root : List DataNode) (path : String) : Option DataNode :=
  resolveLoop root (splitDot path)

/-! ## Expression evaluator (`evaluateExpression`, App.tsx lines 64-113) -/

/-- The character class `[a-zA-Z0-9_.]` of the reference regex. -/
def refChar (c : Char) : Bool :=
  c.isAlpha || c.isDigit || c == '_' || c == '.'

/-- Try to match the reference regex `\{\{([a-zA-Z0-9_.]+)\}\}` at the
head of the character list; on success return the captured path and the
remainder after the match. Greedy matching followed by the literal
braces is exact here because the path class excludes braces, so
backtracking can never produce a different match. -/
def matchRef (l : List Char) : Option (String × List Char) :=
  match l with
  | c₁ :: c₂ :: rest =>
    if c₁ = '{' ∧ c₂ = '{' then
      let run := rest.takeWhile refChar
      match rest.dropWhile refChar with
      | d₁ :: d₂ :: after =>
        if d₁ = '}' ∧ d₂ = '}' ∧ ¬run.isEmpty then some (String.mk run, after)
        else none
      | _ => none
    else none
  | _ => none

theorem matchRef_shrink {l : List Char} {p : String} {after : List Char}
    (h : matchRef l = some (p, after)) : after.length + 3 ≤ l.length := by
  unfold matchRef at h
  split at h
  · rename_i c₁ c₂ rest
    split at h
    · rename_i hb
      split at h
      · rename_i d₁ d₂ after' hd
        dsimp only at h
        split at h
        · rename_i hcond
          have hafter : after' = after := by
            have := Option.some.inj h
            exact congrArg Prod.snd this
          have hne : rest.takeWhile refChar ≠ [] := by
            intro hnil
            exact hcond.2.2 (by simp [hnil])
          have hrun : 1 ≤ (rest.takeWhile refChar).length :=
            Nat.succ_le_of_lt (List.length_pos.mpr hne)
          have hlen : (rest.takeWhile refChar).length +
              (rest.dropWhile refChar).length = rest.length := by
            have h2 := congrArg List.length (List.takeWhile_append_dropWhile refChar rest)
            rw [List.length_append] at h2
            exact h2
          subst hafter
          rw [hd] at hlen
          simp only [List.length_cons] at hlen ⊢
          omega
        · exact absurd h (by simp)
      · exact absurd h (by simp)
    · exact absurd h (by simp)
  · exact absurd h (by simp)

theorem matchRef_shrink' {c : Char} {cs : List Char} {p : String} {after : List Char}
    (h : matchRef (c :: cs) = some (p, after)) : after.length < cs.length + 1 := by
  have := matchRef_shrink h
  simp only [List.length_cons] at this
  omega

/-- The replacement text substituted for a resolved reference. In the
source, the `expression` branch returns the raw payload and the other
branch returns `String(node.value)`; both are coerced to a string by
`String.prototype.replace`, so the two branches substitute the same
text: the stringified payload (for an expression node that is its raw
formula). -/
def refReplacement (jsNum : Rat → String) (node : DataNode) : String :=
  if node.type = "expression" then jsStringOfValue jsNum node.value
  else jsStringOfValue jsNum node.value

/-- Resolve a reference path against the whole tree and produce its
replacement text; `none` models the `Key not found` throw. -/
def lookupRef (jsNum : Rat → String) (root : List DataNode) (path : String) : Option String :=
  (resolvePath root path).map (refReplacement jsNum)

/-- The global-regex replacement loop of
`expression.replace(referenceRegex, ...)` with a throwing callback:
scan left to right, copy non-matching characters, substitute each
matched reference, and abort with the `Key not found` message on the
first unresolvable path. The boolean records whether at least one
reference was substituted (`hasReferences`). -/
def scanRefs (lookup : String → Option String) (l : List Char) :
    Except String (List Char × Bool) :=
  match l with
  | [] => .ok ([], false)
  | c :: cs =>
    match h : matchRef (c :: cs) with
    | some (path, after) =>
      match lookup path with
      | none => .error ("Key not found: " ++ path)
      | some repl =>
        match scanRefs lookup after with
        | .error e => .error e
        | .ok (out, _) => .ok (repl.data ++ out, true)
    | none =>
      match scanRefs lookup cs with
      | .error e => .error e
      | .ok (out, b) => .ok (c :: out, b)
termination_by l.length
decreasing_by
  · exact matchRef_shrink' h
  · simp

/-- The reference paths a formula's scan would visit, in scan order
(the same traversal as `scanRefs`, without resolution). -/
def refTokens (l : List Char) : List String :=
  match l with
  | [] => []
  | c :: cs =>
    match h : matchRef (c :: cs) with
    | some (path, after) => path :: refTokens after
    | none => refTokens cs
termination_by l.length
decreasing_by
  · exact matchRef_shrink' h
  · simp

/-- Step 1-2 of the evaluator: substitute every `{{path}}` reference,
or fail with the first missing path. -/
def substituteRefs (jsNum : Rat → String) (root : List DataNode) (expression : String) :
    Except String (String × Bool) :=
  match scanRefs (lookupRef jsNum root) expression.data with
  | .error e => .error e
  | .ok (out, b) => .ok (String.mk out, b)

/-- A character of the math-operator probe `[+\-*/%()]` (note that `%`
is included here). -/
def isMathOpChar (c : Char) : Bool :=
  c == '+' || c == '-' || c == '*' || c == '/' || c == '%' || c == '(' || c == ')'

/-- A character allowed by the strict arithmetic filter
`/^[0-9+\-*/().\s]+$/` (note that `%` is NOT in this set). -/
def allowedArithChar (c : Char) : Bool :=
  c.isDigit || c == '+' || c == '-' || c == '*' || c == '/' ||
  c == '(' || c == ')' || c == '.' || isJsWhitespace c

/-- The strict arithmetic filter: nonempty and every character allowed. -/
def strictArithCharset (s : String) : Bool :=
  !s.data.isEmpty && s.data.all allowedArithChar

/-- `evaluateExpression(expression, root)`. `jsNum` models number
stringification, `jsIsNaNNumber s` models `isNaN(Number(s))`, and
`jsArithFn` models `new Function('return ' + s)()` (its `.error` case
is a thrown exception reaching the outer catch). The verified claims
never depend on the three parameters' behaviour. -/
def evaluateExpression (jsNum : Rat → String) (jsIsNaNNumber : String → Bool)
    (jsArithFn : String → Except String JsVal)
    (expression : String) (root : List DataNode) : EvalResult :=
  if expression = "" then ⟨.str "", none⟩
  else
    match substituteRefs jsNum root expression with
    | .error msg => ⟨.str "ERR", some msg⟩
    | .ok (resolved, hasReferences) =>
      let isMath := resolved.data.any isMathOpChar || !(jsIsNaNNumber resolved)
      if isMath && hasReferences then
        if !(strictArithCharset resolved) then ⟨.str resolved, none⟩
        else
          match jsArithFn resolved with
          | .ok v => ⟨v, none⟩
          | .error msg => ⟨.str "ERR", some msg⟩
      else ⟨.str resolved, none⟩

def scanRefsF (lookup : String → Option String) : Nat → List Char → Except String (List Char × Bool)
  | 0, _ => .ok ([], false)
  | _, [] => .ok ([], false)
  | n+1, c :: cs =>
    match matchRef (c :: cs) with
    | some (path, after) =>
      match lookup path with
      | none => .error ("Key not found: " ++ path)
      | some repl =>
        match scanRefsF lookup n after with
        | .error e => .error e
        | .ok (out, _) => .ok (repl.data ++ out, true)
    | none =>
      match scanRefsF lookup n cs with
      | .error e => .error e
      | .ok (out, b) => .ok (c :: out, b)

theorem scanRefs_nil (lookup : String → Option String) : scanRefs lookup [] = .ok ([], false) := by
  rw [scanRefs]

theorem scanRefs_cons (lookup : String → Option String) (c : Char) (cs : List Char) :
    scanRefs lookup (c :: cs) =
      match matchRef (c :: cs) with
      | some (path, after) =>
        match lookup path with
        | none => .error ("Key not found: " ++ path)
        | some repl =>
          match scanRefs lookup after with
          | .error e => .error e
          | .ok (out, _) => .ok (repl.data ++ out, true)
      | none =>
        match scanRefs lookup cs with
        | .error e => .error e
        | .ok (out, b) => .ok (c :: out, b) := by
  rw [scanRefs]
  cases hm : matchRef (c :: cs) with
  | none => rfl
  | some pa =>
    obtain ⟨path, after⟩ := pa
    rfl

theorem scanRefsF_eq (lookup : String → Option String) :
    ∀ (n : Nat) (l : List Char), l.length ≤ n → scanRefsF lookup n l = scanRefs lookup l := by
  intro n
  induction n with
  | zero =>
    intro l hl
    have hnil : l = [] := by
      cases l with
      | nil => rfl
      | cons c cs => simp at hl
    subst hnil
    rw [scanRefs_nil]
    rfl
  | succ n ih =>
    intro l hl
    cases l with
    | nil => rw [scanRefs_nil]; rfl
    | cons c cs =>
      rw [scanRefs_cons]
      simp only [scanRefsF]
      cases hm : matchRef (c :: cs) with
      | some pa =>
        obtain ⟨path, after⟩ := pa
        have hlen : after.length ≤ n := by
          have := matchRef_shrink hm
          simp only [List.length_cons] at this hl
          omega
        dsimp only
        rw [ih after hlen]
      | none =>
        have hlen : cs.length ≤ n := by
          simp only [List.length_cons] at hl
          omega
        dsimp only
        rw [ih cs hlen]


/-- Fuel-indexed companion of `refTokens`; with enough fuel it agrees
with `refTokens` and is structurally recursive, so concrete token lists
can be computed by the kernel. -/
def refTokensF : Nat → List Char → List String
  | 0, _ => []
  | _, [] => []
  | n+1, c :: cs =>
    match matchRef (c :: cs) with
    | some (path, after) => path :: refTokensF n after
    | none => refTokensF n cs

theorem refTokens_nil : refTokens [] = [] := by
  rw [refTokens]

theorem refTokens_cons (c : Char) (cs : List Char) :
    refTokens (c :: cs) =
      match matchRef (c :: cs) with
      | some (path, after) => path :: refTokens after
      | none => refTokens cs := by
  rw [refTokens]
  cases hm : matchRef (c :: cs) with
  | none => rfl
  | some pa =>
    obtain ⟨path, after⟩ := pa
    rfl

theorem refTokensF_eq :
    ∀ (n : Nat) (l : List Char), l.length ≤ n → refTokensF n l = refTokens l := by
  intro n
  induction n with
  | zero =>
    intro l hl
    have hnil : l = [] := by
      cases l with
      | nil => rfl
      | cons c cs => simp at hl
    subst hnil
    rw [refTokens_nil]
    rfl
  | succ n ih =>
    intro l hl
    cases l with
    | nil => rw [refTokens_nil]; rfl
    | cons c cs =>
      rw [refTokens_cons]
      simp only [refTokensF]
      cases hm : matchRef (c :: cs) with
      | some pa =>
        obtain ⟨path, after⟩ := pa
        have hlen : after.length ≤ n := by
          have := matchRef_shrink hm
          simp only [List.length_cons] at this hl
          omega
        dsimp only
        rw [ih after hlen]
      | none =>
        have hlen : cs.length ≤ n := by
          simp only [List.length_cons] at hl
          omega
        dsimp only
        rw [ih cs hlen]

/-! ## Tree mutator (`setDeepValue`, App.tsx lines 245-302) -/

/-- The source's `nodes.findIndex(n => n.name === key)` combined with the
subsequent `nodes[existingIndex]` access: the first child whose `name`
equals the key, together with its index. -/
def findByName : List DataNode → String → Option (Nat × DataNode)
  | [], _ => none
  | n :: rest, key =>
    if n.name = key then some (0, n)
    else (findByName rest key).map (fun p => (p.1 + 1, p.2))

/-- The recursive body of `setDeepValue` on an already-split path
(`key` is `parts[0]`, `rest` is `parts.slice(1)`; the source re-joins and
re-splits `rest`, which is the identity on dot-free segments, so direct
structural recursion is the same function). The `gen`/`ctr` pair models
`generateId()` in the source's evaluation order: an object literal's
`id` field is generated before the recursive construction of its `value`
field. `none` models the `TypeError` the source throws when it descends
into a container-typed node whose `value` is not an array of child nodes
(a raw JSON-array payload, the one such state JavaScript would instead
traverse as a plain array, is outside the model — see module comment). -/
def setDeepParts (gen : Nat → String) (ctr : Nat) (nodes : List DataNode)
    (key : String) (rest : List String) (value : DataValue) (type : String) :
    Option (List DataNode × Nat) :=
  match findByName nodes key, rest with
  | some (i, node), [] =>
    some (nodes.take i ++ [DataNode.mk node.id node.name type value] ++ nodes.drop (i + 1), ctr)
  | some (i, node), r :: rs =>
    if node.type ≠ "dictionary" ∧ node.type ≠ "list" then
      some (nodes, ctr)
    else
      match node.value with
      | .nodes children =>
        (setDeepParts gen ctr children r rs value type).map
          (fun p => (nodes.take i ++
            [DataNode.mk node.id node.name node.type (.nodes p.1)] ++
            nodes.drop (i + 1), p.2))
      | _ => none
  | none, [] => some (nodes ++ [DataNode.mk (gen ctr) key type value], ctr + 1)
  | none, r :: rs =>
    (setDeepParts gen (ctr + 1) [] r rs value type).map
      (fun p => (nodes ++ [DataNode.mk (gen ctr) key "dictionary" (.nodes p.1)], p.2))

/-- `setDeepValue(nodes, pathStr, value, type)`: split the path on "."
and run the recursive upsert. `splitDot` never returns `[]`, so the
first branch is unreachable. -/
def setDeepValue (gen : Nat → String) (ctr : Nat) (nodes : List DataNode)
    (pathStr : String) (value : DataValue) (type : String) :
    Option (List DataNode × Nat) :=
  match splitDot pathStr with
  | [] => none
  | key :: rest => setDeepParts gen ctr nodes key rest value type

/-! ## JSON codec (`parseImport` lines 408-440, `exportData` lines 117-136) -/

/-- JavaScript `typeof item === 'object' ? 'dictionary' : typeof item`
for an element of an imported array. Note primitives receive the raw
`typeof` strings "string", "number", "boolean" — for a string item this
is NOT the valid kind "text"; the source stores it anyway. -/
def itemType : Json → String
  | .str _ => "string"
  | .num _ => "number"
  | .bool _ => "boolean"
  | .obj _ => "dictionary"
  | .arr _ => "dictionary"

/-- The `value: item` stored for an element of an imported array: the
raw item itself. In JavaScript a primitive item is just itself, and an
object or array item is stored unconverted (`raw`). -/
def itemValue : Json → DataValue
  | .str s => .str s
  | .num q => .num q
  | .bool b => .bool b
  | .obj fields => .raw (.obj fields)
  | .arr elems => .raw (.arr elems)

/-- The `val.map((item, idx) => ({id, name: String(idx), type, value}))`
loop of `parseImport`'s list branch: each element becomes a
positionally-named child with a fresh id and the raw item as value
(kind inference is one level only, no recursive import). -/
def importListElems (gen : Nat → String) : Nat → Nat → List Json → List DataNode × Nat
  | ctr, _, [] => ([], ctr)
  | ctr, idx, item :: rest =>
    let node := DataNode.mk (gen ctr) (Nat.repr idx) (itemType item) (itemValue item)
    let others := importListElems gen (ctr + 1) (idx + 1) rest
    (node :: others.1, others.2)

mutual

/-- `parseImport(obj)` over the key/value fields of a JSON object:
each key becomes a node whose kind is inferred from the value's runtime
type. Ids of a recursively imported subtree are generated before the
node's own id, matching the source's evaluation order (the object
literal computes `finalValue` before `id: generateId()` runs... the `id`
property initializer runs first in the literal at line 433-438, after
`finalValue` was already computed at lines 419-431). -/
def parseImportFields (gen : Nat → String) : Nat → List (String × Json) → List DataNode × Nat
  | ctr, [] => ([], ctr)
  | ctr, (key, val) :: rest =>
    let v := importValue gen ctr val
    let node := DataNode.mk (gen v.2.2) key v.2.1 v.1
    let others := parseImportFields gen (v.2.2 + 1) rest
    (node :: others.1, others.2)

/-- The value/kind inference for one imported JSON value: gives the
stored `DataValue`, the `finalType` string, and the advanced id counter.
Objects import recursively, arrays wrap their elements one level
(`importListElems`), primitives are stored as themselves with kinds
"text" / "number" / "boolean". -/
def importValue (gen : Nat → String) : Nat → Json → DataValue × String × Nat
  | ctr, .str s => (.str s, "text", ctr)
  | ctr, .num q => (.num q, "number", ctr)
  | ctr, .bool b => (.bool b, "boolean", ctr)
  | ctr, .obj fields =>
    let children := parseImportFields gen ctr fields
    (.nodes children.1, "dictionary", children.2)
  | ctr, .arr elems =>
    let children := importListElems gen ctr 0 elems
    (.nodes children.1, "list", children.2)

end

mutual

/-- Embed a raw JSON value into the export value universe (a raw value
passes through `exportData` unchanged, so this is the identity
injection). -/
def jvalOfJson : Json → JVal
  | .str s => .str s
  | .num q => .num q
  | .bool b => .bool b
  | .obj fields => .obj (jvalOfJsonFields fields)
  | .arr elems => .arr (jvalOfJsonList elems)

def jvalOfJsonFields : List (String × Json) → List (String × JVal)
  | [] => []
  | (k, v) :: rest => (k, jvalOfJson v) :: jvalOfJsonFields rest

def jvalOfJsonList : List Json → List JVal
  | [] => []
  | j :: rest => jvalOfJson j :: jvalOfJsonList rest

end

/-- A node payload as a JavaScript value (used where `exportData` emits
`node.value` or `item.value` unconverted). -/
def dataValueToJVal : DataValue → JVal
  | .str s => .str s
  | .num q => .num q
  | .bool b => .bool b
  | .nodes l => .rawNodes l
  | .raw j => jvalOfJson j

/-- JavaScript `result[k] = v` on an object represented as an ordered
association list: overwrite the value at the first occurrence of the
key, keeping its position; otherwise append. -/
def objInsert : List (String × JVal) → String → JVal → List (String × JVal)
  | [], k, v => [(k, v)]
  | p :: rest, k, v => if p.1 = k then (k, v) :: rest else p :: objInsert rest k v

/-- JavaScript `Array.isArray` on a node payload: true for an array of
child nodes and for a raw JSON array. -/
def isJsArray : DataValue → Bool
  | .nodes _ => true
  | .raw (.arr _) => true
  | _ => false

/-- What `exportData` produces when recursing into a payload that is a
raw JSON array rather than an array of child nodes (only reachable after
importing an array nested directly inside an array): the `forEach` body
reads `.name` and `.value` of plain JSON values, both `undefined`, so
every iteration assigns `result[undefined] = undefined`; the result has
the single key "undefined" when the array is nonempty. -/
def exportRawArrObj (l : List Json) : JVal :=
  .obj (if l.isEmpty then [] else [("undefined", JVal.undef)])

mutual

/-- The `nodes.forEach(node => result[node.name] = ...)` loop of
`exportData`, with `acc` the object built so far. -/
def exportLoop : List DataNode → List (String × JVal) → List (String × JVal)
  | [], acc => acc
  | n :: rest, acc => exportLoop rest (objInsert acc n.name (exportEntry n))

/-- The value `exportData` assigns for one node: a dictionary with a
child-node array recurses into a JSON object; a list with a child-node
array maps its children; any other payload (including an Expression
leaf's formula string) is emitted as `node.value` unconverted. -/
def exportEntry : DataNode → JVal
  | .mk _ _ t v =>
    if t = "dictionary" ∧ isJsArray v then
      match v with
      | .nodes l => .obj (exportLoop l [])
      | .raw (.arr l) => exportRawArrObj l
      | _ => dataValueToJVal v
    else if t = "list" ∧ isJsArray v then
      match v with
      | .nodes l => .arr (exportListVals l)
      | .raw (.arr l) => .arr (l.map (fun _ => JVal.undef))
      | _ => dataValueToJVal v
    else dataValueToJVal v

/-- The `node.value.map(item => ...)` loop for a list node's children. -/
def exportListVals : List DataNode → List JVal
  | [] => []
  | item :: rest => exportItemVal item :: exportListVals rest

/-- The export of one list element: a container-typed element with an
array value becomes an object via `exportData`; anything else is
`item.value` unconverted (in particular the raw JSON object stored for
an imported object-in-array passes through unchanged). -/
def exportItemVal : DataNode → JVal
  | .mk _ _ t v =>
    if (t = "dictionary" ∨ t = "list") ∧ isJsArray v then
      match v with
      | .nodes l => .obj (exportLoop l [])
      | .raw (.arr l) => exportRawArrObj l
      | _ => dataValueToJVal v
    else dataValueToJVal v

end

/-- `exportData(nodes)`: the exported JSON object (as an ordered
association list) for a node sequence. -/
def exportData (nodes : List DataNode) : List (String × JVal) :=
  exportLoop nodes []

/-! ## Predicates used in the statements -/

/-- An element allowed inside an imported array by C1's hypothesis:
a primitive or an object — not an array (no arrays nested directly
inside arrays). Nested objects need no further condition: they pass
through the codec as raw values. -/
inductive GoodElem : Json → Prop where
  | str (s : String) : GoodElem (.str s)
  | num (q : Rat) : GoodElem (.num q)
  | bool (b : Bool) : GoodElem (.bool b)
  | obj (fields : List (String × Json)) : GoodElem (.obj fields)

/-- A JSON value built only from strings, numbers, booleans, nested
objects (with pairwise-distinct keys, as any parsed JSON object has) and
arrays whose elements are primitives or objects. -/
inductive GoodJson : Json → Prop where
  | str (s : String) : GoodJson (.str s)
  | num (q : Rat) : GoodJson (.num q)
  | bool (b : Bool) : GoodJson (.bool b)
  | obj {fields : List (String × Json)} :
      (∀ p ∈ fields, GoodJson p.2) →
      List.Pairwise (fun a b => a.1 ≠ b.1) fields →
      GoodJson (.obj fields)
  | arr {elems : List Json} :
      (∀ e ∈ elems, GoodElem e) → GoodJson (.arr elems)

/-- The traversal of `setDeepParts` reaches, at some depth along the
existing containers, a non-final segment whose named child is not of
kind Dictionary or List (the `TypeMismatch` no-op situation). -/
inductive Blocks : List DataNode → String → List String → Prop where
  | here {nodes : List DataNode} {key : String} {r : String} {rs : List String}
      {i : Nat} {n : DataNode}
      (hf : findByName nodes key = some (i, n))
      (ht₁ : n.type ≠ "dictionary") (ht₂ : n.type ≠ "list") :
      Blocks nodes key (r :: rs)
  | there {nodes : List DataNode} {key : String} {r : String} {rs : List String}
      {i : Nat} {n : DataNode} {l : List DataNode}
      (hf : findByName nodes key = some (i, n))
      (hc : n.type = "dictionary" ∨ n.type = "list")
      (hv : n.value = .nodes l)
      (hb : Blocks l r rs) :
      Blocks nodes key (r :: rs)

/-- The traversal of `setDeepParts` walks the non-final segments of a
path through existing container children (matched by `name`, with
node-array payloads) and finds, at the final segment, an existing child
of kind Dictionary or List. The last index is the resulting tree: at
the final level the matched child `n` is replaced in place by
`DataNode.mk n.id n.name type value` (same id, name and position, new
kind and payload, former subtree discarded), and every enclosing level
is rebuilt around its unchanged siblings. -/
inductive SetsFinal (value : DataValue) (type : String) :
    List DataNode → String → List String → List DataNode → Prop where
  | here {nodes : List DataNode} {key : String} {i : Nat} {n : DataNode}
      (hf : findByName nodes key = some (i, n))
      (hc : n.type = "dictionary" ∨ n.type = "list") :
      SetsFinal value type nodes key []
        (nodes.take i ++ [DataNode.mk n.id n.name type value] ++ nodes.drop (i + 1))
  | deeper {nodes : List DataNode} {key r : String} {rs : List String}
      {i : Nat} {n : DataNode} {l t : List DataNode}
      (hf : findByName nodes key = some (i, n))
      (hc : n.type = "dictionary" ∨ n.type = "list")
      (hv : n.value = .nodes l)
      (hd : SetsFinal value type l r rs t) :
      SetsFinal value type nodes key (r :: rs)
        (nodes.take i ++ [DataNode.mk n.id n.name n.type (.nodes t)] ++ nodes.drop (i + 1))

/-- A decimal-numeral index as the specification's words describe it:
the segment consists solely of decimal digits. This definition follows
the spec's words, not the source (the source uses `parseInt`), and is
used to compare the two readings. -/
def specDecimalIndex (s : String) : Option Nat :=
  if s ≠ "" ∧ s.data.all Char.isDigit then
    some (s.data.foldl (fun a c => a * 10 + (c.toNat - '0'.toNat)) 0)
  else none

/-! ## Concrete instances used by witnesses -/

def gen₀ : Nat → String := fun n => Nat.repr n

def jsNum₀ : Rat → String := fun _ => ""

def jsNaN₀ : String → Bool := fun _ => false

def jsArith₀ : String → Except String JsVal := fun _ => .ok JsVal.undef

/-! ## Claim theorems -/

/-- C9: for every tree, export maps an Expression leaf to its raw
unevaluated formula string — both as a direct entry (`exportEntry`, the
value assigned to `result[node.name]`) and as a list element
(`exportItemVal`). These are the only two places a non-container node is
serialized, and neither mentions the evaluator: the exported value is
the formula text itself, never a computed result. -/
theorem export_expression_raw_formula :
    ∀ (id name formula : String),
      exportEntry (DataNode.mk id name "expression" (.str formula)) = .str formula ∧
      exportItemVal (DataNode.mk id name "expression" (.str formula)) = .str formula := by
  intro id name formula
  exact ⟨rfl, rfl⟩

/-- C10: for every tree and dotted path (of any depth) that traverses
existing container children and whose final segment names an existing
child — in particular a Dictionary or List child — `setDeepValue`
succeeds and replaces that child's `type` and `value` in place with the
supplied kind and value, preserving its `id`, name and position: the
result tree pinned by `SetsFinal` rebuilds every level along the path
around its unchanged siblings and, at the final level, substitutes
`DataNode.mk n.id n.name type value` for the matched child `n`. The
child's former subtree is discarded, so a container anywhere in the
tree is silently overwritten by a leaf; no fresh id is generated and
the counter is returned untouched. -/
theorem setDeep_overwrites_existing_child (gen : Nat → String) (ctr : Nat)
    (nodes : List DataNode) (pathStr key : String) (rest : List String)
    (value : DataValue) (type : String) (t : List DataNode)
    (hsplit : splitDot pathStr = key :: rest)
    (hhit : SetsFinal value type nodes key rest t) :
    setDeepValue gen ctr nodes pathStr value type = some (t, ctr) := by
  rw [setDeepValue.eq_def, hsplit]
  dsimp only
  clear hsplit
  induction hhit generalizing ctr with
  | here hf hc =>
    rw [setDeepParts.eq_def, hf]
  | deeper hf hc hv hd ih =>
    rename_i nodes' key' r' rs' i' n' l' t'
    rw [setDeepParts.eq_def, hf]
    dsimp only
    rw [if_neg (by rcases hc with h | h <;> simp [h])]
    rw [hv]
    dsimp only
    rw [ih ctr]
    rw [Option.map_some']

/-- Witness for C10: the List child `box` (id "7") sitting one level
deep under the Dictionary `a` is overwritten in place by a text leaf
via the two-segment path "a.box", and the same happens at the root via
the one-segment path "box". -/
theorem setDeep_overwrites_existing_child_witness :
    splitDot "a.box" = ["a", "box"] ∧
    setDeepValue gen₀ 4
      [DataNode.mk "1" "a" "dictionary" (.nodes
        [DataNode.mk "7" "box" "list" (.nodes [DataNode.mk "8" "0" "number" (.num 1)])])]
      "a.box" (.str "leaf") "text" =
      some ([DataNode.mk "1" "a" "dictionary" (.nodes
        [DataNode.mk "7" "box" "text" (.str "leaf")])], 4) ∧
    setDeepValue gen₀ 9
      [DataNode.mk "7" "box" "dictionary" (.nodes [DataNode.mk "8" "inner" "number" (.num 1)])]
      "box" (.str "leaf") "text" =
      some ([DataNode.mk "7" "box" "text" (.str "leaf")], 9) := by
  refine ⟨rfl, ?_, ?_⟩
  · have hinner : SetsFinal (.str "leaf") "text"
        [DataNode.mk "7" "box" "list" (.nodes [DataNode.mk "8" "0" "number" (.num 1)])]
        "box" [] [DataNode.mk "7" "box" "text" (.str "leaf")] :=
      @SetsFinal.here (.str "leaf") "text"
        [DataNode.mk "7" "box" "list" (.nodes [DataNode.mk "8" "0" "number" (.num 1)])]
        "box" 0
        (DataNode.mk "7" "box" "list" (.nodes [DataNode.mk "8" "0" "number" (.num 1)]))
        rfl (Or.inr rfl)
    have houter : SetsFinal (.str "leaf") "text"
        [DataNode.mk "1" "a" "dictionary" (.nodes
          [DataNode.mk "7" "box" "list" (.nodes [DataNode.mk "8" "0" "number" (.num 1)])])]
        "a" ["box"]
        [DataNode.mk "1" "a" "dictionary" (.nodes
          [DataNode.mk "7" "box" "text" (.str "leaf")])] :=
      @SetsFinal.deeper (.str "leaf") "text"
        [DataNode.mk "1" "a" "dictionary" (.nodes
          [DataNode.mk "7" "box" "list" (.nodes [DataNode.mk "8" "0" "number" (.num 1)])])]
        "a" "box" [] 0
        (DataNode.mk "1" "a" "dictionary" (.nodes
          [DataNode.mk "7" "box" "list" (.nodes [DataNode.mk "8" "0" "number" (.num 1)])]))
        [DataNode.mk "7" "box" "list" (.nodes [DataNode.mk "8" "0" "number" (.num 1)])]
        [DataNode.mk "7" "box" "text" (.str "leaf")]
        rfl (Or.inl rfl) rfl hinner
    exact setDeep_overwrites_existing_child gen₀ 4
      [DataNode.mk "1" "a" "dictionary" (.nodes
        [DataNode.mk "7" "box" "list" (.nodes [DataNode.mk "8" "0" "number" (.num 1)])])]
      "a.box" "a" ["box"] (.str "leaf") "text"
      [DataNode.mk "1" "a" "dictionary" (.nodes
        [DataNode.mk "7" "box" "text" (.str "leaf")])]
      rfl houter
  · exact setDeep_overwrites_existing_child gen₀ 9
      [DataNode.mk "7" "box" "dictionary" (.nodes [DataNode.mk "8" "inner" "number" (.num 1)])]
      "box" "box" [] (.str "leaf") "text"
      [DataNode.mk "7" "box" "text" (.str "leaf")] rfl
      (@SetsFinal.here (.str "leaf") "text"
        [DataNode.mk "7" "box" "dictionary" (.nodes [DataNode.mk "8" "inner" "number" (.num 1)])]
        "box" 0
        (DataNode.mk "7" "box" "dictionary" (.nodes [DataNode.mk "8" "inner" "number" (.num 1)]))
        rfl (Or.inl rfl))

/-- C5: at a non-final segment with no child of that name,
`setDeepParts` appends a new Dictionary-kind child with that name
(fresh id) and recurses into it; at the final segment with no child it
appends a new leaf with a fresh id and the given name, kind and value;
consequently `deepSet([], "a.b.c", 5, Number)` builds a Dictionary `a`
containing a Dictionary `b` containing a Number leaf `c` with payload 5
(ids being the three successive fresh ids). -/
theorem setDeep_creates_missing (gen : Nat → String) :
    (∀ (ctr : Nat) (nodes : List DataNode) (key r : String) (rs : List String)
       (value : DataValue) (type : String),
       findByName nodes key = none →
       setDeepParts gen ctr nodes key (r :: rs) value type =
         (setDeepParts gen (ctr + 1) [] r rs value type).map
           (fun p => (nodes ++ [DataNode.mk (gen ctr) key "dictionary" (.nodes p.1)], p.2))) ∧
    (∀ (ctr : Nat) (nodes : List DataNode) (key : String)
       (value : DataValue) (type : String),
       findByName nodes key = none →
       setDeepParts gen ctr nodes key [] value type =
         some (nodes ++ [DataNode.mk (gen ctr) key type value], ctr + 1)) ∧
    (∀ ctr : Nat, setDeepValue gen ctr [] "a.b.c" (.num 5) "number" =
       some ([DataNode.mk (gen ctr) "a" "dictionary" (.nodes
         [DataNode.mk (gen (ctr + 1)) "b" "dictionary" (.nodes
           [DataNode.mk (gen (ctr + 2)) "c" "number" (.num 5)])])], ctr + 3)) := by
  refine ⟨?_, ?_, ?_⟩
  · intro ctr nodes key r rs value type hf
    rw [setDeepParts.eq_def, hf]
  · intro ctr nodes key value type hf
    rw [setDeepParts.eq_def, hf]
  · intro ctr
    rfl

/-- Witness for C5: both creation branches at concrete inputs, and the
concrete three-level example. -/
theorem setDeep_creates_missing_witness :
    findByName [] "k" = none ∧
    setDeepParts gen₀ 0 [] "k" [] (.str "v") "text" =
      some ([DataNode.mk (gen₀ 0) "k" "text" (.str "v")], 1) ∧
    setDeepParts gen₀ 0 [] "k" ["c"] (.str "v") "text" =
      (setDeepParts gen₀ 1 [] "c" [] (.str "v") "text").map
        (fun p => ([DataNode.mk (gen₀ 0) "k" "dictionary" (.nodes p.1)], p.2)) ∧
    setDeepValue gen₀ 0 [] "a.b.c" (.num 5) "number" =
      some ([DataNode.mk (gen₀ 0) "a" "dictionary" (.nodes
        [DataNode.mk (gen₀ 1) "b" "dictionary" (.nodes
          [DataNode.mk (gen₀ 2) "c" "number" (.num 5)])])], 3) :=
  ⟨rfl,
   (setDeep_creates_missing gen₀).2.1 0 [] "k" (.str "v") "text" rfl,
   by
     have h := (setDeep_creates_missing gen₀).1 0 [] "k" "c" [] (.str "v") "text" rfl
     simpa using h,
   (setDeep_creates_missing gen₀).2.2 0⟩

/-- C7 counterexample: the segment "0y" matches no child name and is
not a decimal numeral (the spec-worded `specDecimalIndex` rejects it),
so under the claim resolution must fail; yet the source's `parseInt`
fallback parses the leading "0" and resolution succeeds, returning the
node at index 0. -/
theorem resolve_decimal_fallback_counterexample :
    List.find? (fun m => m.name == "0y") [DataNode.mk "1" "x" "number" (.num 5)] = none ∧
    specDecimalIndex "0y" = none ∧
    resolvePath [DataNode.mk "1" "x" "number" (.num 5)] "0y" =
      some (DataNode.mk "1" "x" "number" (.num 5)) :=
  ⟨rfl, rfl, rfl⟩

/-- C7 (amended): `resolveSeq` matches a segment first against the
children's `name` fields; only when no name matches does it fall back to
indexing the same sequence with the result of JavaScript `parseInt` on
the segment (longest leading digit prefix after optional whitespace and
sign, hex `0x` forms included) — for a segment that is a plain decimal
numeral this is the zero-based decimal index. If neither matches (no
name, and `parseInt` yields nothing or an out-of-range or negative
index), resolution is a `none` lookup miss rather than an exception;
a non-final segment landing on a node whose payload is not an array
fails the same way; a node-array payload is descended into; and on the
final segment the matched node itself — not its payload — is returned. -/
theorem resolve_name_first_parseInt_fallback :
    (∀ (nodes : List DataNode) (part : String) (n : DataNode),
       nodes.find? (fun m => m.name == part) = some n →
       resolveSeq nodes part = some n) ∧
    (∀ (nodes : List DataNode) (part : String),
       nodes.find? (fun m => m.name == part) = none →
       parseIntJS part = none →
       resolveSeq nodes part = none) ∧
    (∀ (nodes : List DataNode) (part : String) (i : Int),
       nodes.find? (fun m => m.name == part) = none →
       parseIntJS part = some i →
       ¬(0 ≤ i ∧ i.toNat < nodes.length) →
       resolveSeq nodes part = none) ∧
    (∀ (nodes : List DataNode) (part : String) (i : Int),
       nodes.find? (fun m => m.name == part) = none →
       parseIntJS part = some i →
       0 ≤ i →
       ∀ (hlt : i.toNat < nodes.length),
       resolveSeq nodes part = some (nodes.get ⟨i.toNat, hlt⟩)) ∧
    (∀ (nodes : List DataNode) (part r : String) (rs : List String),
       resolveSeq nodes part = none →
       resolveLoop nodes (part :: r :: rs) = none) ∧
    (∀ (nodes : List DataNode) (part r : String) (rs : List String) (n : DataNode),
       resolveSeq nodes part = some n →
       isJsArray n.value = false →
       resolveLoop nodes (part :: r :: rs) = none) ∧
    (∀ (nodes : List DataNode) (part r : String) (rs : List String) (n : DataNode)
       (children : List DataNode),
       resolveSeq nodes part = some n →
       n.value = .nodes children →
       resolveLoop nodes (part :: r :: rs) = resolveLoop children (r :: rs)) ∧
    (∀ (nodes : List DataNode) (part : String),
       resolveLoop nodes [part] = resolveSeq nodes part) := by
  refine ⟨?_, ?_, ?_, ?_, ?_, ?_, ?_, ?_⟩
  · intro nodes part n hf
    rw [resolveSeq, hf]
  · intro nodes part hf hp
    rw [resolveSeq, hf, hp]
  · intro nodes part i hf hp hrange
    rw [resolveSeq, hf, hp]
    dsimp only
    rw [dif_neg hrange]
  · intro nodes part i hf hp h0 hlt
    rw [resolveSeq, hf, hp]
    dsimp only
    rw [dif_pos ⟨h0, hlt⟩]
  · intro nodes part r rs hf
    rw [resolveLoop, hf]
    simp
  · intro nodes part r rs n hf hv
    rw [resolveLoop, hf]
    · dsimp only
      cases hnv : n.value with
      | nodes children =>
        rw [hnv] at hv
        simp [isJsArray] at hv
      | str s => rfl
      | num q => rfl
      | bool b => rfl
      | raw j => rfl
    · simp
  · intro nodes part r rs n children hf hv
    rw [resolveLoop, hf]
    · dsimp only
      rw [hv]
    · simp
  · intro nodes part
    rw [resolveLoop]

/-- Witness for the amended C7: name lookup finds the node with payload
5 for segment "x", and the positional `parseInt` fallback returns the
first node for segment "0" when no name matches. -/
theorem resolve_name_first_parseInt_fallback_witness :
    ([DataNode.mk "1" "x" "number" (.num 5)].find?
        (fun m => m.name == "x") = some (DataNode.mk "1" "x" "number" (.num 5)) ∧
      resolveSeq [DataNode.mk "1" "x" "number" (.num 5)] "x" =
        some (DataNode.mk "1" "x" "number" (.num 5))) ∧
    ([DataNode.mk "2" "a" "text" (.str "A"), DataNode.mk "3" "b" "text" (.str "B")].find?
        (fun m => m.name == "0") = none ∧
      parseIntJS "0" = some 0 ∧
      resolveSeq [DataNode.mk "2" "a" "text" (.str "A"), DataNode.mk "3" "b" "text" (.str "B")] "0" =
        some (DataNode.mk "2" "a" "text" (.str "A"))) := by
  refine ⟨⟨rfl, ?_⟩, rfl, rfl, ?_⟩
  · exact resolve_name_first_parseInt_fallback.1
      [DataNode.mk "1" "x" "number" (.num 5)] "x"
      (DataNode.mk "1" "x" "number" (.num 5)) rfl
  · have h := resolve_name_first_parseInt_fallback.2.2.2.1
      [DataNode.mk "2" "a" "text" (.str "A"), DataNode.mk "3" "b" "text" (.str "B")] "0"
      0 rfl rfl (by decide) (by decide)
    simpa using h

theorem findByName_reconstruct :
    ∀ (nodes : List DataNode) (key : String) (i : Nat) (n : DataNode),
      findByName nodes key = some (i, n) →
      nodes.take i ++ [n] ++ nodes.drop (i + 1) = nodes := by
  intro nodes
  induction nodes with
  | nil => intro key i n h; simp [findByName] at h
  | cons m ms ih =>
    intro key i n h
    rw [findByName] at h
    by_cases hm : m.name = key
    · rw [if_pos hm] at h
      obtain ⟨hi, hn⟩ : i = 0 ∧ m = n := by
        have := Option.some.inj h
        exact ⟨(congrArg Prod.fst this).symm, congrArg Prod.snd this⟩
      subst hi
      subst hn
      simp
    · rw [if_neg hm] at h
      cases hrec : findByName ms key with
      | none => rw [hrec] at h; simp at h
      | some p =>
        rw [hrec] at h
        obtain ⟨j, n'⟩ := p
        simp only [Option.map_some', Option.some.injEq, Prod.mk.injEq] at h
        obtain ⟨hi, hn⟩ := h
        rw [hn] at hrec
        have hrec' := ih key j n hrec
        rw [← hi]
        simpa [List.take_succ_cons, List.drop_succ_cons] using hrec'

/-- C8: when the traversal of `setDeepValue` hits, at a non-final
segment along existing containers, a named child that is neither a
Dictionary nor a List, the whole operation is a silent no-op: it
succeeds (`some`, no error surfaced) and returns a tree equal to the
input, with the id counter untouched (no node added, changed or
removed). -/
theorem setDeep_type_mismatch_noop (gen : Nat → String) (ctr : Nat)
    (nodes : List DataNode) (pathStr key : String) (rest : List String)
    (value : DataValue) (type : String)
    (hsplit : splitDot pathStr = key :: rest)
    (hb : Blocks nodes key rest) :
    setDeepValue gen ctr nodes pathStr value type = some (nodes, ctr) := by
  rw [setDeepValue.eq_def, hsplit]
  dsimp only
  clear hsplit
  induction hb generalizing ctr with
  | here hf ht₁ ht₂ =>
    rw [setDeepParts.eq_def, hf]
    dsimp only
    rw [if_pos ⟨ht₁, ht₂⟩]
  | there hf hc hv hb ih =>
    rename_i nodes' key' r' rs' i' n' l'
    rw [setDeepParts.eq_def, hf]
    dsimp only
    rw [if_neg (by rcases hc with h | h <;> simp [h])]
    rw [hv]
    dsimp only
    rw [ih ctr]
    have hrebuild : DataNode.mk n'.id n'.name n'.type (.nodes l') = n' := by
      cases n' with
      | mk a b c d =>
        simp only [DataNode.value] at hv
        rw [hv]
        rfl
    rw [Option.map_some']
    dsimp only
    rw [hrebuild]
    rw [findByName_reconstruct nodes' key' i' n' hf]

/-- Witness for C8: setting "a.b" over a tree whose child "a" is a text
leaf leaves the tree unchanged and surfaces no error. -/
theorem setDeep_type_mismatch_noop_witness :
    splitDot "a.b" = ["a", "b"] ∧
    setDeepValue gen₀ 0 [DataNode.mk "1" "a" "text" (.str "v")] "a.b" (.num 7) "number" =
      some ([DataNode.mk "1" "a" "text" (.str "v")], 0) :=
  ⟨rfl,
   setDeep_type_mismatch_noop gen₀ 0 [DataNode.mk "1" "a" "text" (.str "v")]
     "a.b" "a" ["b"] (.num 7) "number" rfl
     (Blocks.here (i := 0) (n := DataNode.mk "1" "a" "text" (.str "v"))
       rfl (by decide) (by decide))⟩

theorem findByName_found_spec :
    ∀ (nodes : List DataNode) (key : String) (i : Nat) (n : DataNode),
      findByName nodes key = some (i, n) → n.name = key ∧ i < nodes.length := by
  intro nodes
  induction nodes with
  | nil => intro key i n h; simp [findByName] at h
  | cons m ms ih =>
    intro key i n h
    rw [findByName] at h
    by_cases hm : m.name = key
    · rw [if_pos hm] at h
      have h2 := Option.some.inj h
      have hn : m = n := congrArg Prod.snd h2
      constructor
      · rw [← hn]; exact hm
      · have hi : (0 : Nat) = i := congrArg Prod.fst h2
        simp [← hi]
    · rw [if_neg hm] at h
      cases hrec : findByName ms key with
      | none => rw [hrec] at h; simp at h
      | some p =>
        obtain ⟨j, n₂⟩ := p
        rw [hrec] at h
        simp only [Option.map_some', Option.some.injEq, Prod.mk.injEq] at h
        obtain ⟨hi, hn⟩ := h
        obtain ⟨hname, hlt⟩ := ih key j n₂ hrec
        constructor
        · rw [← hn]; exact hname
        · rw [← hi]; simp only [List.length_cons]; omega

theorem findByName_replace :
    ∀ (nodes : List DataNode) (key : String) (i : Nat) (n n' : DataNode),
      findByName nodes key = some (i, n) → n'.name = key →
      findByName (nodes.take i ++ [n'] ++ nodes.drop (i + 1)) key = some (i, n') := by
  intro nodes
  induction nodes with
  | nil => intro key i n n' h _; simp [findByName] at h
  | cons m ms ih =>
    intro key i n n' h hname
    rw [findByName] at h
    by_cases hm : m.name = key
    · rw [if_pos hm] at h
      have hi : (0 : Nat) = i := congrArg Prod.fst (Option.some.inj h)
      rw [← hi]
      simp only [List.take_zero, List.nil_append, List.drop_succ_cons, List.drop_zero,
        List.singleton_append]
      rw [findByName, if_pos hname]
    · rw [if_neg hm] at h
      cases hrec : findByName ms key with
      | none => rw [hrec] at h; simp at h
      | some p =>
        obtain ⟨j, n₂⟩ := p
        rw [hrec] at h
        simp only [Option.map_some', Option.some.injEq, Prod.mk.injEq] at h
        obtain ⟨hi, hn⟩ := h
        rw [← hi]
        simp only [List.take_succ_cons, List.drop_succ_cons, List.cons_append]
        rw [findByName, if_neg hm, ih key j n₂ n' hrec hname]
        rfl

theorem findByName_absent :
    ∀ (nodes : List DataNode) (key : String),
      findByName nodes key = none → ∀ n ∈ nodes, n.name ≠ key := by
  intro nodes
  induction nodes with
  | nil => intro key _ n hn; simp at hn
  | cons m ms ih =>
    intro key h n hn
    rw [findByName] at h
    by_cases hm : m.name = key
    · rw [if_pos hm] at h; simp at h
    · rw [if_neg hm] at h
      rcases List.mem_cons.mp hn with hh | hh
      · rw [hh]; exact hm
      · refine ih key ?_ n hh
        cases hrec : findByName ms key with
        | none => rfl
        | some p => rw [hrec] at h; simp at h

theorem findByName_append :
    ∀ (nodes : List DataNode) (key : String) (n' : DataNode),
      findByName nodes key = none → n'.name = key →
      findByName (nodes ++ [n']) key = some (nodes.length, n') := by
  intro nodes
  induction nodes with
  | nil =>
    intro key n' _ hname
    simp only [List.nil_append, List.length_nil]
    rw [findByName, if_pos hname]
  | cons m ms ih =>
    intro key n' h hname
    rw [findByName] at h
    by_cases hm : m.name = key
    · rw [if_pos hm] at h; simp at h
    · rw [if_neg hm] at h
      have hrec : findByName ms key = none := by
        cases hrec : findByName ms key with
        | none => rfl
        | some p => rw [hrec] at h; simp at h
      simp only [List.cons_append, List.length_cons]
      rw [findByName, if_neg hm, ih key n' hrec hname]
      rfl

theorem setDeepParts_idem :
    ∀ (rest : List String) (key : String) (nodes : List DataNode) (gen : Nat → String)
      (ctr : Nat) (gen' : Nat → String) (ctr' : Nat) (value : DataValue) (type : String)
      (t : List DataNode) (c : Nat),
      setDeepParts gen ctr nodes key rest value type = some (t, c) →
      setDeepParts gen' ctr' t key rest value type = some (t, ctr') := by
  intro rest
  induction rest with
  | nil =>
    intro key nodes gen ctr gen' ctr' value type t c h
    rw [setDeepParts.eq_def] at h
    cases hf : findByName nodes key with
    | some p =>
      obtain ⟨i, node⟩ := p
      rw [hf] at h
      dsimp only at h
      have ht : nodes.take i ++ [DataNode.mk node.id node.name type value] ++
          nodes.drop (i + 1) = t :=
        congrArg Prod.fst (Option.some.inj h)
      obtain ⟨hname, hlt⟩ := findByName_found_spec nodes key i node hf
      have hf2 := findByName_replace nodes key i node
        (DataNode.mk node.id node.name type value) hf hname
      rw [ht] at hf2
      rw [setDeepParts.eq_def, hf2]
      dsimp only
      have htk : t.take i = nodes.take i := by
        rw [← ht, List.append_assoc]
        exact List.take_left' (by simp [List.length_take]; omega)
      have htd : t.drop (i + 1) = nodes.drop (i + 1) := by
        rw [← ht]
        exact List.drop_left' (by simp [List.length_take]; omega)
      rw [htk, htd]
      show some (nodes.take i ++ [DataNode.mk node.id node.name type value] ++
        nodes.drop (i + 1), ctr') = some (t, ctr')
      rw [ht]
    | none =>
      rw [hf] at h
      dsimp only at h
      have ht : nodes ++ [DataNode.mk (gen ctr) key type value] = t :=
        congrArg Prod.fst (Option.some.inj h)
      have hf2 := findByName_append nodes key (DataNode.mk (gen ctr) key type value) hf rfl
      rw [ht] at hf2
      rw [setDeepParts.eq_def, hf2]
      dsimp only
      have htk : t.take nodes.length = nodes := by
        rw [← ht]
        exact List.take_left nodes _
      have htd : t.drop (nodes.length + 1) = [] := by
        rw [← ht]
        exact List.drop_eq_nil_of_le (by simp)
      rw [htk, htd]
      show some (nodes ++ [DataNode.mk (gen ctr) key type value] ++ [], ctr') = some (t, ctr')
      rw [List.append_nil, ht]
  | cons r rs ih =>
    intro key nodes gen ctr gen' ctr' value type t c h
    rw [setDeepParts.eq_def] at h
    cases hf : findByName nodes key with
    | some p =>
      obtain ⟨i, node⟩ := p
      rw [hf] at h
      dsimp only at h
      by_cases htype : node.type ≠ "dictionary" ∧ node.type ≠ "list"
      · rw [if_pos htype] at h
        have ht : nodes = t := congrArg Prod.fst (Option.some.inj h)
        rw [← ht]
        rw [setDeepParts.eq_def, hf]
        dsimp only
        rw [if_pos htype]
      · rw [if_neg htype] at h
        cases hv : node.value with
        | nodes children =>
          rw [hv] at h
          dsimp only at h
          cases hi : setDeepParts gen ctr children r rs value type with
          | none => rw [hi] at h; simp at h
          | some q =>
            obtain ⟨children', c₂⟩ := q
            rw [hi] at h
            simp only [Option.map_some'] at h
            have ht : nodes.take i ++
                [DataNode.mk node.id node.name node.type (.nodes children')] ++
                nodes.drop (i + 1) = t :=
              congrArg Prod.fst (Option.some.inj h)
            obtain ⟨hname, hlt⟩ := findByName_found_spec nodes key i node hf
            have hf2 := findByName_replace nodes key i node
              (DataNode.mk node.id node.name node.type (.nodes children')) hf hname
            rw [ht] at hf2
            rw [setDeepParts.eq_def, hf2]
            dsimp only
            rw [if_neg (show ¬((DataNode.mk node.id node.name node.type
              (.nodes children')).type ≠ "dictionary" ∧ (DataNode.mk node.id node.name
              node.type (.nodes children')).type ≠ "list") from htype)]
            show (setDeepParts gen' ctr' children' r rs value type).map _ = some (t, ctr')
            have hinner := ih r children gen ctr gen' ctr' value type children' c₂ hi
            rw [hinner]
            simp only [Option.map_some']
            have htk : t.take i = nodes.take i := by
              rw [← ht, List.append_assoc]
              exact List.take_left' (by simp [List.length_take]; omega)
            have htd : t.drop (i + 1) = nodes.drop (i + 1) := by
              rw [← ht]
              exact List.drop_left' (by simp [List.length_take]; omega)
            rw [htk, htd]
            show some (nodes.take i ++ [DataNode.mk node.id node.name node.type
              (.nodes children')] ++ nodes.drop (i + 1), ctr') = some (t, ctr')
            rw [ht]
        | str s => rw [hv] at h; simp at h
        | num q => rw [hv] at h; simp at h
        | bool b => rw [hv] at h; simp at h
        | raw j => rw [hv] at h; simp at h
    | none =>
      rw [hf] at h
      dsimp only at h
      cases hi : setDeepParts gen (ctr + 1) [] r rs value type with
      | none => rw [hi] at h; simp at h
      | some q =>
        obtain ⟨children, c₂⟩ := q
        rw [hi] at h
        simp only [Option.map_some'] at h
        have ht : nodes ++ [DataNode.mk (gen ctr) key "dictionary" (.nodes children)] = t :=
          congrArg Prod.fst (Option.some.inj h)
        have hf2 := findByName_append nodes key
          (DataNode.mk (gen ctr) key "dictionary" (.nodes children)) hf rfl
        rw [ht] at hf2
        rw [setDeepParts.eq_def, hf2]
        dsimp only
        rw [if_neg (show ¬((DataNode.mk (gen ctr) key "dictionary"
          (.nodes children)).type ≠ "dictionary" ∧ (DataNode.mk (gen ctr) key "dictionary"
          (.nodes children)).type ≠ "list") from fun hx => hx.1 rfl)]
        show (setDeepParts gen' ctr' children r rs value type).map _ = some (t, ctr')
        have hinner := ih r [] gen (ctr + 1) gen' ctr' value type children c₂ hi
        rw [hinner]
        simp only [Option.map_some']
        have htk : t.take nodes.length = nodes := by
          rw [← ht]
          exact List.take_left nodes _
        have htd : t.drop (nodes.length + 1) = [] := by
          rw [← ht]
          exact List.drop_eq_nil_of_le (by simp)
        rw [htk, htd]
        show some (nodes ++ [DataNode.mk (gen ctr) key "dictionary" (.nodes children)] ++ [],
          ctr') = some (t, ctr')
        rw [List.append_nil, ht]

/-- C2: `setDeepValue` is idempotent. If applying `(path, value, kind)`
once completes and produces tree `t`, applying the same triple to `t`
completes and returns `t` itself — equal as a value, ids included (the
second application creates no node, so it is independent of the id
stream and leaves the fresh-id counter untouched). -/
theorem setDeepValue_idem (gen : Nat → String) (ctr : Nat) (gen' : Nat → String) (ctr' : Nat)
    (nodes : List DataNode) (pathStr : String) (value : DataValue) (type : String)
    (t : List DataNode) (c : Nat)
    (h : setDeepValue gen ctr nodes pathStr value type = some (t, c)) :
    setDeepValue gen' ctr' t pathStr value type = some (t, ctr') := by
  rw [setDeepValue.eq_def] at h ⊢
  cases hs : splitDot pathStr with
  | nil =>
    rw [hs] at h
    dsimp only at h
    exact absurd h (by simp)
  | cons key rest =>
    rw [hs] at h
    exact setDeepParts_idem rest key nodes gen ctr gen' ctr' value type t c h

/-- Witness for C2: a two-segment upsert into a tree that already holds
a conflicting leaf and a proper container; the second application (with
a different id stream and counter) reproduces the first result exactly. -/
theorem setDeepValue_idem_witness :
    setDeepValue gen₀ 10 [DataNode.mk "1" "a" "dictionary"
        (.nodes [DataNode.mk "2" "x" "number" (.num 1)])] "a.b" (.str "v") "text" =
      some ([DataNode.mk "1" "a" "dictionary"
        (.nodes [DataNode.mk "2" "x" "number" (.num 1),
                 DataNode.mk (gen₀ 10) "b" "text" (.str "v")])], 11) ∧
    setDeepValue (fun n => "other" ++ Nat.repr n) 99
        [DataNode.mk "1" "a" "dictionary"
          (.nodes [DataNode.mk "2" "x" "number" (.num 1),
                   DataNode.mk (gen₀ 10) "b" "text" (.str "v")])] "a.b" (.str "v") "text" =
      some ([DataNode.mk "1" "a" "dictionary"
        (.nodes [DataNode.mk "2" "x" "number" (.num 1),
                 DataNode.mk (gen₀ 10) "b" "text" (.str "v")])], 99) :=
  ⟨rfl,
   setDeepValue_idem gen₀ 10 (fun n => "other" ++ Nat.repr n) 99
     [DataNode.mk "1" "a" "dictionary" (.nodes [DataNode.mk "2" "x" "number" (.num 1)])]
     "a.b" (.str "v") "text"
     [DataNode.mk "1" "a" "dictionary"
       (.nodes [DataNode.mk "2" "x" "number" (.num 1),
                DataNode.mk (gen₀ 10) "b" "text" (.str "v")])] 11 rfl⟩

theorem scanRefs_error_of_missing (lookup : String → Option String) :
    ∀ (N : Nat) (l : List Char), l.length ≤ N →
      (∃ p ∈ refTokens l, lookup p = none) →
      ∃ p, p ∈ refTokens l ∧ lookup p = none ∧
        scanRefs lookup l = .error ("Key not found: " ++ p) := by
  intro N
  induction N with
  | zero =>
    intro l hl hex
    have hnil : l = [] := by
      cases l with
      | nil => rfl
      | cons c cs => simp at hl
    subst hnil
    rw [refTokens_nil] at hex
    simp at hex
  | succ N ih =>
    intro l hl hex
    cases l with
    | nil => rw [refTokens_nil] at hex; simp at hex
    | cons c cs =>
      rw [refTokens_cons] at hex
      rw [refTokens_cons, scanRefs_cons]
      cases hm : matchRef (c :: cs) with
      | none =>
        rw [hm] at hex
        dsimp only at hex ⊢
        obtain ⟨p, hp, hnone, herr⟩ := ih cs (by simp only [List.length_cons] at hl; omega) hex
        exact ⟨p, hp, hnone, by rw [herr]⟩
      | some pa =>
        obtain ⟨path, after⟩ := pa
        rw [hm] at hex
        dsimp only at hex ⊢
        cases hlk : lookup path with
        | none =>
          exact ⟨path, List.mem_cons_self _ _, hlk, rfl⟩
        | some repl =>
          obtain ⟨p, hp, hnone⟩ := hex
          have hp' : p ∈ refTokens after := by
            rcases List.mem_cons.mp hp with he | ht
            · rw [he, hlk] at hnone
              exact absurd hnone (by simp)
            · exact ht
          have hafter : after.length ≤ N := by
            have := matchRef_shrink hm
            simp only [List.length_cons] at this hl
            omega
          obtain ⟨q, hq, hqnone, herr⟩ := ih after hafter ⟨p, hp', hnone⟩
          refine ⟨q, List.mem_cons_of_mem _ hq, hqnone, ?_⟩
          dsimp only
          rw [herr]

/-- C4: if a formula contains at least one reference token whose path
does not resolve against the root, evaluation yields the fixed sentinel
result "ERR" together with a non-empty error message naming the failing
path ("Key not found: " followed by the path of the first such token the
scan meets). The failure is confined to this one evaluation:
`evaluateExpression` is a pure function of the formula and the root, so
no tree state is touched (the tree is neither part of the result nor
mutated). -/
theorem evaluate_missing_reference (jsNum : Rat → String) (jsNaN : String → Bool)
    (jsArith : String → Except String JsVal) (expression : String) (root : List DataNode)
    (h : ∃ p ∈ refTokens expression.data, resolvePath root p = none) :
    ∃ p, p ∈ refTokens expression.data ∧ resolvePath root p = none ∧
      evaluateExpression jsNum jsNaN jsArith expression root =
        ⟨.str "ERR", some ("Key not found: " ++ p)⟩ ∧
      "Key not found: " ++ p ≠ "" := by
  have htrans : ∀ q : String, resolvePath root q = none ↔ lookupRef jsNum root q = none := by
    intro q
    rw [lookupRef]
    exact Option.map_eq_none'.symm
  obtain ⟨p₀, hp₀, hn₀⟩ := h
  obtain ⟨p, hp, hnone, herr⟩ := scanRefs_error_of_missing (lookupRef jsNum root)
    expression.data.length expression.data le_rfl ⟨p₀, hp₀, (htrans p₀).mp hn₀⟩
  have hnr : resolvePath root p = none := (htrans p).mpr hnone
  have hne : expression ≠ "" := by
    intro he
    have hdata : expression.data = [] := by rw [he]
    rw [hdata, refTokens_nil] at hp
    simp at hp
  refine ⟨p, hp, hnr, ?_, ?_⟩
  · rw [evaluateExpression, if_neg hne, substituteRefs, herr]
  · intro hemp
    have h2 := congrArg String.length hemp
    rw [String.length_append] at h2
    have h3 : ("Key not found: " : String).length = 15 := rfl
    have h4 : ("" : String).length = 0 := rfl
    rw [h3, h4] at h2
    omega

/-- Witness for C4: the spec's own example, `evaluate("{{missing}}")`
over the empty root. -/
theorem evaluate_missing_reference_witness :
    (∃ p ∈ refTokens "{{missing}}".data, resolvePath [] p = none) ∧
    (∃ p, p ∈ refTokens "{{missing}}".data ∧ resolvePath [] p = none ∧
      evaluateExpression jsNum₀ jsNaN₀ jsArith₀ "{{missing}}" [] =
        ⟨.str "ERR", some ("Key not found: " ++ p)⟩ ∧
      "Key not found: " ++ p ≠ "") := by
  have htok : refTokens "{{missing}}".data = ["missing"] := by
    rw [← refTokensF_eq 16 _ (by decide)]
    rfl
  have hh : ∃ p ∈ refTokens "{{missing}}".data, resolvePath ([] : List DataNode) p = none := by
    rw [htok]
    exact ⟨"missing", by simp, rfl⟩
  exact ⟨hh, evaluate_missing_reference jsNum₀ jsNaN₀ jsArith₀ "{{missing}}" [] hh⟩

theorem strictArith_false_of_bad_char {resolved : String}
    (hbad : ∃ c ∈ resolved.data, allowedArithChar c = false) :
    strictArithCharset resolved = false := by
  obtain ⟨c, hc, hcb⟩ := hbad
  have hall : resolved.data.all allowedArithChar = false := by
    cases hA : resolved.data.all allowedArithChar with
    | false => rfl
    | true => exact absurd (List.all_eq_true.mp hA c hc) (by simp [hcb])
  rw [strictArithCharset, hall, Bool.and_false]

/-- C6: when at least one reference was substituted and the substituted
string contains any character outside digits, `+ - * / ( ) .` and
whitespace, the evaluator returns the substituted string as-is as a text
result with no error. Arithmetic is never attempted: the statement holds
for every arithmetic-evaluation parameter `jsArith` (and every
`jsNaN`), so the result cannot depend on them. -/
theorem evaluate_nonarith_text (jsNum : Rat → String) (jsNaN : String → Bool)
    (jsArith : String → Except String JsVal) (expression resolved : String)
    (root : List DataNode)
    (hsub : substituteRefs jsNum root expression = .ok (resolved, true))
    (hbad : ∃ c ∈ resolved.data, allowedArithChar c = false) :
    evaluateExpression jsNum jsNaN jsArith expression root = ⟨.str resolved, none⟩ := by
  have hne : expression ≠ "" := by
    intro he
    rw [he] at hsub
    have hempty : substituteRefs jsNum root "" = .ok ("", false) := by
      rw [substituteRefs]
      have hdata : ("" : String).data = [] := rfl
      rw [hdata, scanRefs_nil]
    rw [hempty] at hsub
    simp at hsub
  have hstrict := strictArith_false_of_bad_char hbad
  rw [evaluateExpression, if_neg hne, hsub]
  dsimp only
  cases hM : (resolved.data.any isMathOpChar || !(jsNaN resolved)) with
  | true => simp [hstrict]
  | false => simp

/-- Witness for C6: the spec's own example, `evaluate("Hello {{name}}")`
with `name = "World"`, giving the text "Hello World". -/
theorem evaluate_nonarith_text_witness :
    substituteRefs jsNum₀ [DataNode.mk "1" "name" "text" (.str "World")] "Hello {{name}}" =
      .ok ("Hello World", true) ∧
    (∃ c ∈ "Hello World".data, allowedArithChar c = false) ∧
    evaluateExpression jsNum₀ jsNaN₀ jsArith₀ "Hello {{name}}"
        [DataNode.mk "1" "name" "text" (.str "World")] =
      ⟨.str "Hello World", none⟩ := by
  have hsub : substituteRefs jsNum₀ [DataNode.mk "1" "name" "text" (.str "World")]
      "Hello {{name}}" = .ok ("Hello World", true) := by
    rw [substituteRefs,
      ← scanRefsF_eq (lookupRef jsNum₀ [DataNode.mk "1" "name" "text" (.str "World")])
        16 _ (by decide)]
    rfl
  refine ⟨hsub, by decide, ?_⟩
  exact evaluate_nonarith_text jsNum₀ jsNaN₀ jsArith₀ "Hello {{name}}" "Hello World"
    [DataNode.mk "1" "name" "text" (.str "World")] hsub (by decide)

/-- C3 counterexample: for the formula "{{a}} % 3" with `a` holding the
text "10", the substituted string "10 % 3" is a well-formed arithmetic
expression containing `%`, whose numeric value would be 1; yet the
evaluator returns the substituted STRING "10 % 3" as a text result (the
strict arithmetic filter excludes `%`), not the number — with no error
either, so this is not an arithmetic failure but a silent text
fallback. -/
theorem evaluate_modulo_counterexample :
    evaluateExpression jsNum₀ jsNaN₀ jsArith₀ "{{a}} % 3"
        [DataNode.mk "1" "a" "text" (.str "10")] =
      ⟨.str "10 % 3", none⟩ ∧
    JsVal.str "10 % 3" ≠ JsVal.num 1 := by
  constructor
  · rw [evaluateExpression, if_neg (by decide), substituteRefs,
      ← scanRefsF_eq (lookupRef jsNum₀ [DataNode.mk "1" "a" "text" (.str "10")])
        16 _ (by decide)]
    rfl
  · simp

/-- C3 (amended): for every formula in which at least one reference is
substituted and whose substituted string contains the modulo operator
`%`, the evaluator does NOT evaluate the arithmetic: the probe regex
counts `%` as a math operator, but the strict arithmetic filter
`[0-9+\-*/().\s]` excludes `%`, so the substituted string is returned
unchanged as a text result with no error — for every arithmetic
backend `jsArith`. -/
theorem evaluate_modulo_returns_text (jsNum : Rat → String) (jsNaN : String → Bool)
    (jsArith : String → Except String JsVal) (expression resolved : String)
    (root : List DataNode)
    (hsub : substituteRefs jsNum root expression = .ok (resolved, true))
    (hmod : '%' ∈ resolved.data) :
    evaluateExpression jsNum jsNaN jsArith expression root = ⟨.str resolved, none⟩ := by
  have hne : expression ≠ "" := by
    intro he
    rw [he] at hsub
    have hempty : substituteRefs jsNum root "" = .ok ("", false) := by
      rw [substituteRefs]
      have hdata : ("" : String).data = [] := rfl
      rw [hdata, scanRefs_nil]
    rw [hempty] at hsub
    simp at hsub
  have hstrict := strictArith_false_of_bad_char ⟨'%', hmod, rfl⟩
  have hmath : resolved.data.any isMathOpChar = true :=
    List.any_eq_true.mpr ⟨'%', hmod, rfl⟩
  rw [evaluateExpression, if_neg hne, hsub]
  dsimp only
  rw [hmath]
  simp [hstrict]

/-- Witness for the amended C3: "{{a}} % 3" with `a = "10"` substitutes
to "10 % 3" (containing %) and comes back as text. -/
theorem evaluate_modulo_returns_text_witness :
    substituteRefs jsNum₀ [DataNode.mk "1" "a" "text" (.str "10")] "{{a}} % 3" =
      .ok ("10 % 3", true) ∧
    '%' ∈ "10 % 3".data ∧
    evaluateExpression jsNum₀ jsNaN₀ jsArith₀ "{{a}} % 3"
        [DataNode.mk "1" "a" "text" (.str "10")] =
      ⟨.str "10 % 3", none⟩ := by
  have hsub : substituteRefs jsNum₀ [DataNode.mk "1" "a" "text" (.str "10")] "{{a}} % 3" =
      .ok ("10 % 3", true) := by
    rw [substituteRefs,
      ← scanRefsF_eq (lookupRef jsNum₀ [DataNode.mk "1" "a" "text" (.str "10")])
        16 _ (by decide)]
    rfl
  refine ⟨hsub, by decide, ?_⟩
  exact evaluate_modulo_returns_text jsNum₀ jsNaN₀ jsArith₀ "{{a}} % 3" "10 % 3"
    [DataNode.mk "1" "a" "text" (.str "10")] hsub (by decide)

theorem objInsert_append :
    ∀ (acc : List (String × JVal)) (k : String) (v : JVal),
      (∀ p ∈ acc, p.1 ≠ k) → objInsert acc k v = acc ++ [(k, v)] := by
  intro acc
  induction acc with
  | nil => intro k v _; rfl
  | cons p rest ih =>
    intro k v h
    rw [objInsert, if_neg (h p (List.mem_cons_self _ _)), ih k v
      (fun q hq => h q (List.mem_cons_of_mem _ hq))]
    rfl

theorem importFields_names :
    ∀ (fields : List (String × Json)) (gen : Nat → String) (ctr : Nat),
      ((parseImportFields gen ctr fields).1).map DataNode.name = fields.map Prod.fst := by
  intro fields
  induction fields with
  | nil => intro gen ctr; rfl
  | cons p rest ih =>
    obtain ⟨key, val⟩ := p
    intro gen ctr
    show (DataNode.mk (gen (importValue gen ctr val).2.2) key (importValue gen ctr val).2.1
        (importValue gen ctr val).1 ::
        (parseImportFields gen ((importValue gen ctr val).2.2 + 1) rest).1).map DataNode.name =
      key :: rest.map Prod.fst
    rw [List.map_cons, ih]
    rfl

theorem exportLoop_eq_map :
    ∀ (nodes : List DataNode) (acc : List (String × JVal)),
      List.Pairwise (fun a b => a.name ≠ b.name) nodes →
      (∀ n ∈ nodes, ∀ p ∈ acc, p.1 ≠ n.name) →
      exportLoop nodes acc = acc ++ nodes.map (fun n => (n.name, exportEntry n)) := by
  intro nodes
  induction nodes with
  | nil => intro acc _ _; simp [exportLoop]
  | cons n rest ih =>
    intro acc hpair hdis
    rw [exportLoop]
    rw [objInsert_append acc n.name (exportEntry n)
      (fun p hp => hdis n (List.mem_cons_self _ _) p hp)]
    rw [ih (acc ++ [(n.name, exportEntry n)]) (List.Pairwise.sublist (by simp) hpair) ?hd]
    · simp
    case hd =>
      intro m hm p hp
      rcases List.mem_append.mp hp with hpa | hpb
      · exact hdis m (List.mem_cons_of_mem _ hm) p hpa
      · have hps : p = (n.name, exportEntry n) := by simpa using hpb
        rw [hps]
        exact (List.pairwise_cons.mp hpair).1 m hm
    
theorem importFields_map_entries :
    ∀ (fields : List (String × Json)) (gen : Nat → String) (ctr : Nat),
      (∀ p ∈ fields, ∀ (gen' : Nat → String) (ctr' : Nat) (id name : String),
        exportEntry (DataNode.mk id name (importValue gen' ctr' p.2).2.1
          (importValue gen' ctr' p.2).1) = jvalOfJson p.2) →
      ((parseImportFields gen ctr fields).1).map (fun n => (n.name, exportEntry n)) =
        jvalOfJsonFields fields := by
  intro fields
  induction fields with
  | nil => intro gen ctr _; rfl
  | cons p rest ih =>
    obtain ⟨key, val⟩ := p
    intro gen ctr hpt
    show (DataNode.mk (gen (importValue gen ctr val).2.2) key (importValue gen ctr val).2.1
        (importValue gen ctr val).1 ::
        (parseImportFields gen ((importValue gen ctr val).2.2 + 1) rest).1).map
        (fun n => (n.name, exportEntry n)) =
      (key, jvalOfJson val) :: jvalOfJsonFields rest
    rw [List.map_cons, ih gen _ (fun q hq => hpt q (List.mem_cons_of_mem _ hq))]
    have hhead := hpt (key, val) (List.mem_cons_self _ _)
      gen ctr (gen (importValue gen ctr val).2.2) key
    rw [show (DataNode.mk (gen (importValue gen ctr val).2.2) key
        (importValue gen ctr val).2.1 (importValue gen ctr val).1).name = key from rfl,
      hhead]

theorem exportData_importFields (gen : Nat → String) (ctr : Nat)
    (fields : List (String × Json))
    (hpt : ∀ p ∈ fields, ∀ (gen' : Nat → String) (ctr' : Nat) (id name : String),
      exportEntry (DataNode.mk id name (importValue gen' ctr' p.2).2.1
        (importValue gen' ctr' p.2).1) = jvalOfJson p.2)
    (hpair : List.Pairwise (fun a b => a.1 ≠ b.1) fields) :
    exportData (parseImportFields gen ctr fields).1 = jvalOfJsonFields fields := by
  rw [exportData]
  have hnames := importFields_names fields gen ctr
  have hpnames : List.Pairwise (fun a b : DataNode => a.name ≠ b.name)
      (parseImportFields gen ctr fields).1 := by
    have hpf : List.Pairwise (fun a b : String => a ≠ b) (fields.map Prod.fst) :=
      List.pairwise_map.mpr hpair
    rw [← hnames] at hpf
    exact List.pairwise_map.mp hpf
  rw [exportLoop_eq_map _ [] hpnames (by simp)]
  rw [List.nil_append]
  exact importFields_map_entries fields gen ctr hpt

theorem exportListVals_import :
    ∀ (elems : List Json) (gen : Nat → String) (ctr idx : Nat),
      (∀ e ∈ elems, GoodElem e) →
      exportListVals (importListElems gen ctr idx elems).1 = jvalOfJsonList elems := by
  intro elems
  induction elems with
  | nil => intro gen ctr idx _; rfl
  | cons e es ih =>
    intro gen ctr idx hg
    show exportItemVal (DataNode.mk (gen ctr) (Nat.repr idx) (itemType e) (itemValue e)) ::
        exportListVals (importListElems gen (ctr + 1) (idx + 1) es).1 =
      jvalOfJson e :: jvalOfJsonList es
    rw [ih gen (ctr + 1) (idx + 1) (fun x hx => hg x (List.mem_cons_of_mem _ hx))]
    cases e with
    | str s => rfl
    | num q => rfl
    | bool b => rfl
    | obj f => rfl
    | arr l => cases hg (.arr l) (List.mem_cons_self _ _)

theorem exportEntry_import :
    ∀ (j : Json), GoodJson j → ∀ (gen : Nat → String) (ctr : Nat) (id name : String),
      exportEntry (DataNode.mk id name (importValue gen ctr j).2.1
        (importValue gen ctr j).1) = jvalOfJson j := by
  intro j hg
  induction hg with
  | str s => intro gen ctr id name; rfl
  | num q => intro gen ctr id name; rfl
  | bool b => intro gen ctr id name; rfl
  | obj hfields hpair ih =>
    rename_i fields
    intro gen ctr id name
    show JVal.obj (exportLoop (parseImportFields gen ctr fields).1 []) =
      JVal.obj (jvalOfJsonFields fields)
    rw [show exportLoop (parseImportFields gen ctr fields).1 [] =
        exportData (parseImportFields gen ctr fields).1 from rfl]
    rw [exportData_importFields gen ctr fields (fun p hp => ih p hp) hpair]
  | arr hg =>
    rename_i elems
    intro gen ctr id name
    show JVal.arr (exportListVals (importListElems gen ctr 0 elems).1) =
      JVal.arr (jvalOfJsonList elems)
    rw [exportListVals_import elems gen ctr 0 hg]

/-- C1: for every JSON object built only from strings, numbers,
booleans, nested objects, and arrays whose elements are primitives or
objects (no arrays nested directly inside arrays), exporting the
imported tree reproduces the object exactly: the exported association
list equals the original field list (same keys, same order, values
embedded unchanged by the identity injection `jvalOfJsonFields`), which
is deep equality of the two JSON objects. -/
theorem export_import_roundtrip (gen : Nat → String) (ctr : Nat)
    (fields : List (String × Json)) (h : GoodJson (.obj fields)) :
    exportData (parseImportFields gen ctr fields).1 = jvalOfJsonFields fields := by
  cases h with
  | obj hfields hpair =>
    exact exportData_importFields gen ctr fields
      (fun p hp => exportEntry_import p.2 (hfields p hp)) hpair

/-- Witness for C1: a concrete object with a string field, an array
holding a number and an object, and a nested object, round-trips
unchanged. -/
theorem export_import_roundtrip_witness :
    GoodJson (.obj [("a", .str "x"),
      ("items", .arr [.num 3, .obj [("k", .bool true)], .str "s"]),
      ("cfg", .obj [("t", .str "dark"), ("n", .num 14)])]) ∧
    exportData (parseImportFields gen₀ 0 [("a", .str "x"),
      ("items", .arr [.num 3, .obj [("k", .bool true)], .str "s"]),
      ("cfg", .obj [("t", .str "dark"), ("n", .num 14)])]).1 =
    jvalOfJsonFields [("a", .str "x"),
      ("items", .arr [.num 3, .obj [("k", .bool true)], .str "s"]),
      ("cfg", .obj [("t", .str "dark"), ("n", .num 14)])] := by
  have hgood : GoodJson (.obj [("a", Json.str "x"),
      ("items", .arr [.num 3, .obj [("k", .bool true)], .str "s"]),
      ("cfg", .obj [("t", .str "dark"), ("n", .num 14)])]) := by
    refine GoodJson.obj ?_ ?_
    · intro p hp
      simp only [List.mem_cons, List.not_mem_nil, or_false] at hp
      rcases hp with h1 | h2 | h3
      · rw [h1]; exact GoodJson.str "x"
      · rw [h2]
        refine GoodJson.arr ?_
        intro e he
        simp only [List.mem_cons, List.not_mem_nil, or_false] at he
        rcases he with e1 | e2 | e3
        · rw [e1]; exact GoodElem.num 3
        · rw [e2]; exact GoodElem.obj _
        · rw [e3]; exact GoodElem.str "s"
      · rw [h3]
        refine GoodJson.obj ?_ ?_
        · intro q hq
          simp only [List.mem_cons, List.not_mem_nil, or_false] at hq
          rcases hq with q1 | q2
          · rw [q1]; exact GoodJson.str "dark"
          · rw [q2]; exact GoodJson.num 14
        · simp
    · simp
  exact ⟨hgood, export_import_roundtrip gen₀ 0 _ hgood⟩
